import Mathlib

/-!
Verification of the cell-growth simulation ("Level 3") of `main.py`.

The embedding below translates the Python source directly:

* Python `float` values (positions, radii, speeds, elapsed time) are
  idealised as real numbers; `mass` is a Python `int` and becomes `ℤ`.
* The comparison `i.mass * 1.125 < cell.mass` multiplies an `int` by the
  float `1.125 = 9/8`, which is exact in binary floating point for every
  mass below `2^49`; it is embedded as `9 * i.mass < 8 * cell.mass`.
* Mutable `Cell` objects are records; Python object identity (used by
  `list.remove`) is represented by an `id` field, unique per cell.
* Fallible operations (list indexing out of range, `min`/`max` of an empty
  sequence) return `Option`/`Except` values instead of raising.
* `while` loops over indices are written with an explicit fuel argument
  that dominates the number of iterations the loop guard permits, so the
  definitions stay structurally recursive and reduce by `rfl`.
-/

namespace CellSim

open Real

/-- Planar vector, idealising `pygame.Vector2` (float components become reals). -/
structure V2 where
  x : ℝ
  y : ℝ

noncomputable instance : DecidableEq V2 := Classical.decEq V2

instance : Add V2 := ⟨fun a b => ⟨a.x + b.x, a.y + b.y⟩⟩

instance : Sub V2 := ⟨fun a b => ⟨a.x - b.x, a.y - b.y⟩⟩

instance : Neg V2 := ⟨fun a => ⟨-a.x, -a.y⟩⟩

instance : SMul ℝ V2 := ⟨fun r a => ⟨r * a.x, r * a.y⟩⟩

@[simp] theorem V2.add_x (a b : V2) : (a + b).x = a.x + b.x := rfl

@[simp] theorem V2.add_y (a b : V2) : (a + b).y = a.y + b.y := rfl

@[simp] theorem V2.sub_x (a b : V2) : (a - b).x = a.x - b.x := rfl

@[simp] theorem V2.sub_y (a b : V2) : (a - b).y = a.y - b.y := rfl

@[simp] theorem V2.neg_x (a : V2) : (-a).x = -a.x := rfl

@[simp] theorem V2.neg_y (a : V2) : (-a).y = -a.y := rfl

@[simp] theorem V2.smul_x (r : ℝ) (a : V2) : (r • a).x = r * a.x := rfl

@[simp] theorem V2.smul_y (r : ℝ) (a : V2) : (r • a).y = r * a.y := rfl

/-- `Vector2.distance_squared_to`: squared euclidean distance. -/
def dSq (a b : V2) : ℝ := (a.x - b.x) ^ 2 + (a.y - b.y) ^ 2

/-- `Vector2.magnitude` used by `magnitude()`/`scale_to_length`/`clamp_magnitude`. -/
noncomputable def mag (v : V2) : ℝ := Real.sqrt (v.x ^ 2 + v.y ^ 2)

/-- One `Cell` object: the attributes assigned in `Cell.__init__` that the
classifier, absorption and collision code reads.  `id` stands for Python
object identity; the outline `points` list and the colours are not modelled
(no claim reads them).  The derived fields (`radius`, `sqr_radius`,
`point_count`, `speed`) are stored, exactly as the source caches them on the
object. -/
structure PCell where
  id : ℕ
  mass : ℤ
  pos : V2
  radius : ℝ
  sqrRadius : ℝ
  pointCount : ℤ
  speed : ℝ

/-- `Cell.get_radius`: `(mass / pi) ** 0.5`.  Mass is always positive in the
program, so the float power `** 0.5` is a square root. -/
noncomputable def getRadius (m : ℤ) : ℝ := Real.sqrt ((m : ℝ) / π)

/-- `Cell.get_point_count`: `round(2.0 * pi * radius / 10.0 + 8.0)`.  Lean's
`round` rounds halves up while Python rounds halves to even; the argument is
never an exact half-integer at the inputs considered here, so the two agree. -/
noncomputable def getPointCount (r : ℝ) : ℤ := round (2 * π * r / 10 + 8)

/-- Speed formula `1024.0 / mass ** 0.5` assigned in `__init__`/`update_values`. -/
noncomputable def speedOf (m : ℤ) : ℝ := 1024 / Real.sqrt (m : ℝ)

/-- `Container.__next__` driven from `__iter__` (which resets the index to 0):
while `index + 1 < len`, increment the index and yield the element at the new
index.  `containerIterAux l fuel idx` collects everything yielded from state
`idx`; each yield requires `idx + 1 < len`, so `fuel = l.length` is enough for
a full run and the fuel-exhausted branch is never taken from `containerIterVals`. -/
def containerIterAux (l : List PCell) : ℕ → ℕ → List PCell
  | 0, _ => []
  | fuel + 1, idx =>
    if h : idx + 1 < l.length then l[idx + 1] :: containerIterAux l fuel (idx + 1) else []

/-- The full sequence of cells yielded by `for ... in container`. -/
def containerIterVals (l : List PCell) : List PCell := containerIterAux l l.length 0

/-- Index reached by the `while` loop of `Cell.get_preys`
(`while cells[index].mass + 1024 < mass: index += 1` starting at 0).
`none` models the `IndexError` raised when the scan runs past the end. -/
def getPreysAux (m : ℤ) : List PCell → Option ℕ
  | [] => none
  | c :: rest => if c.mass + 1024 < m then (getPreysAux m rest).map (· + 1) else some 0

/-- `Cell.get_preys`: the prefix `cells[:index]` below the stop index. -/
def getPreys (cells : List PCell) (m : ℤ) : Option (List PCell) :=
  (getPreysAux m cells).map (fun k => cells.take k)

/-- The `while` loop of `Cell.get_predators`
(`while cells[index].mass > mass + 1024 and index + 1 < len(cells): index += 1`).
Python's `and` evaluates `cells[index]` first, so an out-of-range index is an
`IndexError` (`none`).  Each iteration requires `index + 1 < len`, so the loop
runs fewer than `len` times and fuel `cells.length` is never exhausted from
`getPredators`; the fuel-exhausted branch returns the current index. -/
def getPredLoop (cells : List PCell) (m : ℤ) : ℕ → ℕ → Option ℕ
  | 0, idx => some idx
  | fuel + 1, idx =>
    match cells[idx]? with
    | none => none
    | some c =>
      if c.mass > m + 1024 ∧ idx + 1 < cells.length then getPredLoop cells m fuel (idx + 1)
      else some idx

/-- `Cell.get_predators`: starts at `index = len(cells) - 1` and returns the
slice `cells[index + 1:]`.  On an empty container the start index is `-1` and
Python's `cells[-1]` raises `IndexError` (`none`). -/
def getPredators (cells : List PCell) (m : ℤ) : Option (List PCell) :=
  match cells with
  | [] => none
  | _ :: _ =>
    (getPredLoop cells m cells.length (cells.length - 1)).map (fun idx => cells.drop (idx + 1))

/-- `Cell.get_near_preys`: filter `get_preys` by
`position.distance_squared_to(x.position) <= get_radius(mass) ** 2 * 16.0`. -/
noncomputable def getNearPreys (cells : List PCell) (m : ℤ) (posn : V2) :
    Option (List PCell) :=
  (getPreys cells m).map
    (List.filter (fun x => decide (dSq posn x.pos ≤ getRadius m ^ 2 * 16)))

/-- Python's `min(l, key=f)`: raises on an empty sequence, otherwise scans left
to right keeping the first element whose key is strictly smaller than the
current best — i.e. it returns the first element attaining the minimum. -/
def pyMinBy {β : Type} [LinearOrder β] (f : PCell → β) : List PCell → Option PCell
  | [] => none
  | x :: xs => some (xs.foldl (fun b y => if f y < f b then y else b) x)

/-- Python's `max(l, key=f)`: first element attaining the maximum. -/
def pyMaxBy {β : Type} [LinearOrder β] (f : PCell → β) : List PCell → Option PCell
  | [] => none
  | x :: xs => some (xs.foldl (fun b y => if f b < f y then y else b) x)

/-- Errors the classifier reductions can raise. -/
inductive PyErr where
  | indexError
  | emptyArg
deriving DecidableEq

/-- `Cell.get_nearest_prey`: `min(get_preys(mass), key=distance_squared_to)`.
`emptyArg` is the `ValueError` from `min` on an empty sequence. -/
noncomputable def getNearestPrey (cells : List PCell) (m : ℤ) (posn : V2) :
    Except PyErr PCell :=
  match getPreys cells m with
  | none => .error .indexError
  | some preys =>
    match pyMinBy (fun x => dSq posn x.pos) preys with
    | none => .error .emptyArg
    | some c => .ok c

/-- `Cell.get_most_perspective_prey`: `max(get_near_preys(mass, position), key=mass)`. -/
noncomputable def getMostPerspectivePrey (cells : List PCell) (m : ℤ) (posn : V2) :
    Except PyErr PCell :=
  match getNearPreys cells m posn with
  | none => .error .indexError
  | some near =>
    match pyMaxBy (fun x => x.mass) near with
    | none => .error .emptyArg
    | some c => .ok c

/-- The key comparison of `cells.sort(key=lambda x: x.mass)`. -/
def massLe (a b : PCell) : Bool := decide (a.mass ≤ b.mass)

/-- `Container.sort` with the mass key: Python's `sorted` is a stable merge
sort, embedded as `List.mergeSort`. -/
def sortByMass (l : List PCell) : List PCell := l.mergeSort massLe

/-- The container invariant: consecutive cells have non-decreasing mass. -/
def sortedByMass (l : List PCell) : Prop := l.Pairwise (fun a b => a.mass ≤ b.mass)

/-- `Cell.update_values` restricted to the cell's own fields (its final
`cells.sort` is applied by the callers below).  As in the source, `radius`
is recomputed from the mass, `sqr_radius` is `radius * radius`, and
`get_point_count` is called with `self.mass` (the outline `points` growth
loop only touches the unmodelled points list). -/
noncomputable def updateValuesCell (c : PCell) : PCell :=
  { c with
    radius := getRadius c.mass
    sqrRadius := getRadius c.mass * getRadius c.mass
    pointCount := getPointCount ((c.mass : ℝ))
    speed := speedOf c.mass }

/-- `Cell.change_mass` as seen from the global container: the cell object with
identity `cid` gains `change` mass, its derived fields are recomputed, and
`update_values` ends by re-sorting the whole container by mass. -/
noncomputable def changeMassInContainer (cells : List PCell) (cid : ℕ) (change : ℤ) :
    List PCell :=
  sortByMass (cells.map (fun x =>
    if x.id = cid then updateValuesCell { x with mass := x.mass + change } else x))

/-- `Container.remove_object`: `list.remove` deletes the first element equal to
the argument; objects compare by identity, i.e. by `id`. -/
def removeObject (cells : List PCell) (cid : ℕ) : List PCell :=
  cells.eraseP (fun x => x.id == cid)

/-- The container mutations performed during the level-3 game loop: a mass
change (which re-sorts) and an absorption removal.  Insertions only happen
during setup, before `start_new_game()` performs the initial sort. -/
inductive LoopOp where
  | changeMass (cid : ℕ) (change : ℤ)
  | removeCell (cid : ℕ)

noncomputable def applyOp (cells : List PCell) : LoopOp → List PCell
  | .changeMass cid change => changeMassInContainer cells cid change
  | .removeCell cid => removeObject cells cid

noncomputable def applyOps (cells : List PCell) (ops : List LoopOp) : List PCell :=
  ops.foldl applyOp cells

/-- The prey candidates of one `Player.update` scan:
`[i for i in cells if i.mass * 1.125 < cell.mass]`.  The list comprehension
iterates the container through `__iter__`/`__next__`. -/
def playerPreyCandidates (cells : List PCell) (c : PCell) : List PCell :=
  (containerIterVals cells).filter (fun i => decide (9 * i.mass < 8 * c.mass))

/-- One iteration of the `for cell in self.cells` loop of `Player.update`, for
the owned cell `c`: pick the candidate prey nearest to `c`; if its squared
distance to `c` is within `c.sqr_radius / 4`, the cell absorbs it
(`change_mass(prey.mass)`, which re-sorts, then `remove_object(prey)`). -/
noncomputable def absorbStep (cells : List PCell) (c : PCell) : List PCell :=
  match pyMinBy (fun i => dSq i.pos c.pos) (playerPreyCandidates cells c) with
  | none => cells
  | some prey =>
    if dSq prey.pos c.pos ≤ c.sqrRadius / 4 then
      removeObject (changeMassInContainer cells c.id prey.mass) prey.id
    else cells

/-- `Vector2.clamp_magnitude`: unchanged when the length is within the bound,
otherwise rescaled to the bound. -/
noncomputable def clampMagnitude (v : V2) (maxLen : ℝ) : V2 :=
  if mag v ≤ maxLen then v else (maxLen / mag v) • v

/-- `Vector2.scale_to_length`: rescale to the requested length.  The source
only calls it on a vector with `x ≠ 0`, so the length is never zero. -/
noncomputable def scaleToLength (v : V2) (len : ℝ) : V2 := (len / mag v) • v

/-- `Cell.move_cell(destination)`: a no-op when already at `destination`,
otherwise the position advances by `(destination - position)` clamped to
magnitude `speed * delta_time`.  (The outline points are translated by the
same vector; they are not modelled.) -/
noncomputable def moveCell (c : PCell) (dt : ℝ) (dest : V2) : PCell :=
  if c.pos = dest then c
  else { c with pos := c.pos + clampMagnitude (dest - c.pos) (c.speed * dt) }

/-- `Cell.update`: move toward the owner's destination, then clamp the centre
to the world bounds `[0, W] × [0, H]` (`move_points` only touches the
unmodelled outline). -/
noncomputable def cellUpdate (c : PCell) (dt : ℝ) (dest : V2) (W H : ℝ) : PCell :=
  let m := moveCell c dt dest
  { m with pos := ⟨max 0 (min m.pos.x W), max 0 (min m.pos.y H)⟩ }

/-- `Cell.intersects`: squared centre distance strictly below the squared sum
of the stored radii. -/
def intersectsProp (a b : PCell) : Prop := dSq a.pos b.pos < (a.radius + b.radius) ^ 2

noncomputable instance (a b : PCell) : Decidable (intersectsProp a b) :=
  Real.decidableLT _ _

/-- The body of `Entity.push_away` for one unordered pair of sibling cells.
Non-intersecting pairs are skipped; so are pairs with `direction.x == 0`
(the disjunct `direction == 0` also forces `direction.x == 0`, so it adds
nothing).  Otherwise the centre vector is rescaled to the penetration depth
`radius1 + radius2 - |direction|` and the scaled vectors
`-direction * (cell2.mass / mass)` and `direction * (cell2.mass / mass)` are
passed to `move_cell` — which treats its argument as a destination point.
The source's locals `direction`, `mass` and `distance` are inlined here. -/
noncomputable def pushAwayPair (c1 c2 : PCell) (dt : ℝ) : PCell × PCell :=
  if ¬ intersectsProp c1 c2 then (c1, c2)
  else if (c2.pos - c1.pos).x = 0 then (c1, c2)
  else
    (moveCell c1 dt
      (-(((c2.mass : ℝ) / ((c1.mass : ℝ) + (c2.mass : ℝ))) •
         scaleToLength (c2.pos - c1.pos) (c1.radius + c2.radius - mag (c2.pos - c1.pos)))),
     moveCell c2 dt
      (((c2.mass : ℝ) / ((c1.mass : ℝ) + (c2.mass : ℝ))) •
         scaleToLength (c2.pos - c1.pos) (c1.radius + c2.radius - mag (c2.pos - c1.pos))))

/-! Concrete game states used to instantiate the theorems below.  Derived
fields are filled exactly as `Cell.__init__` computes them from the mass. -/

/-- A mass-16 cell at the origin (the default spawn mass). -/
noncomputable def wlow : PCell :=
  ⟨0, 16, ⟨0, 0⟩, getRadius 16, getRadius 16 * getRadius 16,
    getPointCount ((16 : ℝ)), speedOf 16⟩

/-- A mass-4096 cell (the Player's spawn mass). -/
noncomputable def whigh : PCell :=
  ⟨1, 4096, ⟨3, 4⟩, getRadius 4096, getRadius 4096 * getRadius 4096,
    getPointCount ((4096 : ℝ)), speedOf 4096⟩

/-- A two-cell container, sorted ascending by mass. -/
noncomputable def wcells : List PCell := [wlow, whigh]

/-- A mass-500 prey cell sitting at distance 1 from the player cell below;
it is the lowest-mass cell of its container. -/
noncomputable def cexP : PCell :=
  ⟨0, 500, ⟨100, 100⟩, getRadius 500, getRadius 500 * getRadius 500,
    getPointCount ((500 : ℝ)), speedOf 500⟩

/-- A Player-owned cell of mass 1000, one unit away from `cexP`. -/
noncomputable def cexC1 : PCell :=
  ⟨1, 1000, ⟨100, 101⟩, getRadius 1000, getRadius 1000 * getRadius 1000,
    getPointCount ((1000 : ℝ)), speedOf 1000⟩

/-- A far-away sibling cell of mass 1000. -/
noncomputable def cexC2 : PCell :=
  ⟨2, 1000, ⟨300, 300⟩, getRadius 1000, getRadius 1000 * getRadius 1000,
    getPointCount ((1000 : ℝ)), speedOf 1000⟩

/-- The container for the absorption scenario, sorted ascending by mass. -/
noncomputable def cex3cells : List PCell := [cexP, cexC1, cexC2]

/-- Sibling cell of mass 512 (the Enemy spawn mass) near the left world edge. -/
noncomputable def cexA : PCell :=
  ⟨10, 512, ⟨1/20, 0⟩, getRadius 512, getRadius 512 * getRadius 512,
    getPointCount ((512 : ℝ)), speedOf 512⟩

/-- Sibling cell of mass 512 overlapping `cexA` (centre distance 25.4, sum of
radii about 25.53). -/
noncomputable def cexB : PCell :=
  ⟨11, 512, ⟨509/20, 0⟩, getRadius 512, getRadius 512 * getRadius 512,
    getPointCount ((512 : ℝ)), speedOf 512⟩

/-- A cell parked outside the world bounds whose destination equals its
position (so `move_cell` is a no-op and `Cell.update` only clamps). -/
noncomputable def wstatic : PCell :=
  ⟨20, 512, ⟨900, -5⟩, getRadius 512, getRadius 512 * getRadius 512,
    getPointCount ((512 : ℝ)), speedOf 512⟩

/-! Helper lemmas about the container iterator and the classifier scans. -/

theorem containerIterAux_eq_drop (l : List PCell) :
    ∀ fuel idx, l.length ≤ fuel + (idx + 1) →
      containerIterAux l fuel idx = l.drop (idx + 1) := by
  intro fuel
  induction fuel with
  | zero =>
    intro idx h
    simp only [containerIterAux]
    exact (List.drop_eq_nil_of_le (by omega)).symm
  | succ fuel ih =>
    intro idx h
    by_cases hlt : idx + 1 < l.length
    · simp only [containerIterAux, dif_pos hlt]
      rw [ih (idx + 1) (by omega)]
      exact List.getElem_cons_drop l (idx + 1) hlt
    · simp only [containerIterAux, dif_neg hlt]
      exact (List.drop_eq_nil_of_le (by omega)).symm

theorem containerIterVals_eq_drop (l : List PCell) :
    containerIterVals l = l.drop 1 := by
  unfold containerIterVals
  exact containerIterAux_eq_drop l l.length 0 (by omega)

theorem getPredators_cons (c : PCell) (rest : List PCell) (m : ℤ) :
    getPredators (c :: rest) m = some [] := by
  have hidx : rest.length < (c :: rest).length := by simp
  have hloop :
      getPredLoop (c :: rest) m (c :: rest).length ((c :: rest).length - 1) =
        some rest.length := by
    have hlen : (c :: rest).length = rest.length + 1 := rfl
    rw [hlen]
    simp only [Nat.add_sub_cancel, getPredLoop, List.getElem?_eq_getElem hidx]
    rw [if_neg]
    intro hand
    omega
  unfold getPredators
  rw [hloop]
  simp only [Option.map]
  congr 1
  exact List.drop_eq_nil_of_le (by simp)

theorem getPreysAux_spec (m : ℤ) :
    ∀ l : List PCell, sortedByMass l → (∃ c ∈ l, ¬ c.mass + 1024 < m) →
      ∃ k, getPreysAux m l = some k ∧
        l.take k = l.filter (fun c => decide (c.mass + 1024 < m)) := by
  intro l
  induction l with
  | nil => intro _ h; exact absurd h (by simp)
  | cons c rest ih =>
    intro hsort hwit
    rcases List.pairwise_cons.mp hsort with ⟨hhead, hrest⟩
    by_cases hc : c.mass + 1024 < m
    · have hwit' : ∃ w ∈ rest, ¬ w.mass + 1024 < m := by
        rcases hwit with ⟨w, hw, hwm⟩
        rcases List.mem_cons.mp hw with rfl | hw'
        · exact absurd hc hwm
        · exact ⟨w, hw', hwm⟩
      rcases ih hrest hwit' with ⟨k, hk, htake⟩
      refine ⟨k + 1, ?_, ?_⟩
      · simp [getPreysAux, hc, hk]
      · simp only [List.take_succ_cons, List.filter_cons, decide_eq_true_eq, hc,
          if_pos, htake]
    · refine ⟨0, ?_, ?_⟩
      · simp [getPreysAux, hc]
      · have hnone : ∀ r ∈ rest, ¬ r.mass + 1024 < m := by
          intro r hr
          have := hhead r hr
          omega
        rw [List.take_zero]
        rw [eq_comm, List.filter_eq_nil_iff]
        intro a ha
        rcases List.mem_cons.mp ha with rfl | ha'
        · simpa using hc
        · simpa using hnone a ha'

/-! Helper lemmas about Python's `min`/`max` with a key function. -/

theorem pyMinBy_foldl_spec {β : Type} [LinearOrder β] (f : PCell → β) :
    ∀ (xs : List PCell) (b : PCell),
      (xs.foldl (fun b y => if f y < f b then y else b) b ∈ b :: xs) ∧
      f (xs.foldl (fun b y => if f y < f b then y else b) b) ≤ f b ∧
      ∀ y ∈ xs, f (xs.foldl (fun b y => if f y < f b then y else b) b) ≤ f y := by
  intro xs
  induction xs with
  | nil => intro b; simp
  | cons x rest ih =>
    intro b
    simp only [List.foldl_cons]
    by_cases hx : f x < f b
    · rw [if_pos hx]
      rcases ih x with ⟨hmem, hle, hall⟩
      refine ⟨List.mem_cons_of_mem _ hmem, le_trans hle (le_of_lt hx), ?_⟩
      intro y hy
      rcases List.mem_cons.mp hy with rfl | hy'
      · exact hle
      · exact hall y hy'
    · rw [if_neg hx]
      rcases ih b with ⟨hmem, hle, hall⟩
      refine ⟨?_, hle, ?_⟩
      · rcases List.mem_cons.mp hmem with h | h
        · rw [h]; exact List.mem_cons_self _ _
        · exact List.mem_cons_of_mem _ (List.mem_cons_of_mem _ h)
      · intro y hy
        rcases List.mem_cons.mp hy with rfl | hy'
        · exact le_trans hle (not_lt.mp hx)
        · exact hall y hy'

theorem pyMinBy_spec {β : Type} [LinearOrder β] (f : PCell → β) (l : List PCell)
    (c : PCell) (h : pyMinBy f l = some c) :
    c ∈ l ∧ ∀ d ∈ l, f c ≤ f d := by
  match l with
  | [] => simp [pyMinBy] at h
  | x :: xs =>
    simp only [pyMinBy, Option.some.injEq] at h
    rcases pyMinBy_foldl_spec f xs x with ⟨hmem, hle, hall⟩
    subst h
    refine ⟨hmem, ?_⟩
    intro d hd
    rcases List.mem_cons.mp hd with rfl | hd'
    · exact hle
    · exact hall d hd'

theorem pyMaxBy_foldl_spec {β : Type} [LinearOrder β] (f : PCell → β) :
    ∀ (xs : List PCell) (b : PCell),
      (xs.foldl (fun b y => if f b < f y then y else b) b ∈ b :: xs) ∧
      f b ≤ f (xs.foldl (fun b y => if f b < f y then y else b) b) ∧
      ∀ y ∈ xs, f y ≤ f (xs.foldl (fun b y => if f b < f y then y else b) b) := by
  intro xs
  induction xs with
  | nil => intro b; simp
  | cons x rest ih =>
    intro b
    simp only [List.foldl_cons]
    by_cases hx : f b < f x
    · rw [if_pos hx]
      rcases ih x with ⟨hmem, hle, hall⟩
      refine ⟨List.mem_cons_of_mem _ hmem, le_trans (le_of_lt hx) hle, ?_⟩
      intro y hy
      rcases List.mem_cons.mp hy with rfl | hy'
      · exact hle
      · exact hall y hy'
    · rw [if_neg hx]
      rcases ih b with ⟨hmem, hle, hall⟩
      refine ⟨?_, hle, ?_⟩
      · rcases List.mem_cons.mp hmem with h | h
        · rw [h]; exact List.mem_cons_self _ _
        · exact List.mem_cons_of_mem _ (List.mem_cons_of_mem _ h)
      · intro y hy
        rcases List.mem_cons.mp hy with rfl | hy'
        · exact le_trans (not_lt.mp hx) hle
        · exact hall y hy'

theorem pyMaxBy_spec {β : Type} [LinearOrder β] (f : PCell → β) (l : List PCell)
    (c : PCell) (h : pyMaxBy f l = some c) :
    c ∈ l ∧ ∀ d ∈ l, f d ≤ f c := by
  match l with
  | [] => simp [pyMaxBy] at h
  | x :: xs =>
    simp only [pyMaxBy, Option.some.injEq] at h
    rcases pyMaxBy_foldl_spec f xs x with ⟨hmem, hle, hall⟩
    subst h
    refine ⟨hmem, ?_⟩
    intro d hd
    rcases List.mem_cons.mp hd with rfl | hd'
    · exact hle
    · exact hall d hd'

theorem pyMinBy_eq_none {β : Type} [LinearOrder β] (f : PCell → β) (l : List PCell) :
    pyMinBy f l = none ↔ l = [] := by
  cases l <;> simp [pyMinBy]

theorem pyMaxBy_eq_none {β : Type} [LinearOrder β] (f : PCell → β) (l : List PCell) :
    pyMaxBy f l = none ↔ l = [] := by
  cases l <;> simp [pyMaxBy]

/-! Helper lemmas about the container sort. -/

theorem sortByMass_sorted (l : List PCell) : sortedByMass (sortByMass l) := by
  have htrans : ∀ a b c : PCell,
      massLe a b = true → massLe b c = true → massLe a c = true := by
    intro a b c hab hbc
    simp only [massLe, decide_eq_true_eq] at hab hbc ⊢
    omega
  have htotal : ∀ a b : PCell, (massLe a b || massLe b a) = true := by
    intro a b
    simp only [massLe, Bool.or_eq_true, decide_eq_true_eq]
    omega
  have h := List.sorted_mergeSort htrans htotal l
  exact h.imp (by intro a b hab; simpa [massLe] using hab)

theorem sortedByMass_removeObject (l : List PCell) (cid : ℕ) (h : sortedByMass l) :
    sortedByMass (removeObject l cid) :=
  List.Pairwise.sublist (List.eraseP_sublist l) h

theorem applyOp_sorted (cells : List PCell) (op : LoopOp) (h : sortedByMass cells) :
    sortedByMass (applyOp cells op) := by
  cases op with
  | changeMass cid change => exact sortByMass_sorted _
  | removeCell cid => exact sortedByMass_removeObject cells cid h

theorem applyOps_sorted :
    ∀ (ops : List LoopOp) (cells : List PCell), sortedByMass cells →
      sortedByMass (applyOps cells ops) := by
  intro ops
  induction ops with
  | nil => intro cells h; exact h
  | cons op rest ih =>
    intro cells h
    exact ih (applyOp cells op) (applyOp_sorted cells op h)

/-- C1: the claim states that `Cell.get_predators(m)` returns exactly the live
cells with `mass > m + 1024`.  In the source the loop guard
`index + 1 < len(cells)` is false at the start index `len(cells) - 1`, so the
scan never moves and the returned slice `cells[index + 1:]` is always empty.
On the sorted container `[mass 16, mass 4096]` with query mass 16 the cell of
mass 4096 exceeds the threshold 1040 yet is not returned. -/
theorem claim_C1 :
    getPredators wcells 16 = some [] ∧ whigh ∈ wcells ∧ whigh.mass > 16 + 1024 := by
  refine ⟨?_, ?_, ?_⟩
  · exact getPredators_cons wlow [whigh] 16
  · simp [wcells]
  · norm_num [whigh]

/-- C2: on a container sorted ascending by mass that contains the querying
cell (mass `m`), `Cell.get_preys(m)` returns exactly the prefix of cells with
`mass < m - 1024`; every returned cell is below the threshold, the querying
cell is excluded, and the result is disjoint from `get_predators(m)`. -/
theorem claim_C2 (cells : List PCell) (m : ℤ) (q : PCell)
    (hsort : sortedByMass cells) (hq : q ∈ cells) (hm : q.mass = m) :
    ∃ L P, getPreys cells m = some L ∧
      L = cells.filter (fun c => decide (c.mass + 1024 < m)) ∧
      (∀ p ∈ L, p.mass < m - 1024) ∧
      q ∉ L ∧
      getPredators cells m = some P ∧
      ∀ x ∈ L, x ∉ P := by
  have hwit : ∃ c ∈ cells, ¬ c.mass + 1024 < m := ⟨q, hq, by omega⟩
  rcases getPreysAux_spec m cells hsort hwit with ⟨k, hk, htake⟩
  refine ⟨cells.filter (fun c => decide (c.mass + 1024 < m)), [], ?_, rfl, ?_, ?_, ?_, ?_⟩
  · rw [getPreys, hk, Option.map]
    exact congrArg some htake
  · intro p hp
    have := (List.mem_filter.mp hp).2
    simp only [decide_eq_true_eq] at this
    omega
  · intro hqL
    have := (List.mem_filter.mp hqL).2
    simp only [decide_eq_true_eq] at this
    omega
  · rcases List.exists_cons_of_ne_nil (List.ne_nil_of_mem hq) with ⟨c, rest, rfl⟩
    exact getPredators_cons c rest m
  · intro x _ hx
    simp at hx

/-- Witness for C2: the sorted two-cell container `[mass 16, mass 4096]`
queried by its own mass-4096 cell. -/
theorem claim_C2_witness :
    sortedByMass wcells ∧ whigh ∈ wcells ∧ whigh.mass = 4096 ∧
    (∃ L P, getPreys wcells 4096 = some L ∧
      L = wcells.filter (fun c => decide (c.mass + 1024 < 4096)) ∧
      (∀ p ∈ L, p.mass < 4096 - 1024) ∧
      whigh ∉ L ∧
      getPredators wcells 4096 = some P ∧
      ∀ x ∈ L, x ∉ P) := by
  have hsort : sortedByMass wcells := by
    unfold sortedByMass wcells
    refine List.Pairwise.cons ?_ (List.pairwise_singleton _ _)
    intro b hb
    rcases List.mem_singleton.mp hb with rfl
    norm_num [wlow, whigh]
  have hmem : whigh ∈ wcells := by simp [wcells]
  exact ⟨hsort, hmem, rfl, claim_C2 wcells 4096 whigh hsort hmem rfl⟩

/-- C6: after the initial `start_new_game` sort, the container mutations the
game loop performs — `change_mass` (which ends with a full re-sort) and
absorption removal (which preserves relative order) — keep the Population
Container sorted ascending by mass, and iterating it also yields
non-decreasing masses. -/
theorem claim_C6 (init : List PCell) (ops : List LoopOp) :
    sortedByMass (applyOps (sortByMass init) ops) ∧
    List.Pairwise (fun a b => a.mass ≤ b.mass)
      (containerIterVals (applyOps (sortByMass init) ops)) := by
  have h := applyOps_sorted ops (sortByMass init) (sortByMass_sorted init)
  refine ⟨h, ?_⟩
  rw [containerIterVals_eq_drop]
  exact List.Pairwise.sublist (List.drop_sublist 1 _) h

/-- C10: iterating a `Container` via `__iter__`/`__next__` yields exactly the
elements at indices 1 through n-1 — the element at index 0 is never yielded —
so the Player's prey-candidate scan `[i for i in cells if i.mass * 1.125 <
cell.mass]` only filters the tail of the mass-sorted container and always
omits the lowest-mass cell. -/
theorem claim_C10 (x : PCell) (xs : List PCell) (c : PCell) :
    containerIterVals (x :: xs) = xs ∧
    playerPreyCandidates (x :: xs) c =
      xs.filter (fun i => decide (9 * i.mass < 8 * c.mass)) := by
  have h : containerIterVals (x :: xs) = xs := by
    rw [containerIterVals_eq_drop]
    rfl
  exact ⟨h, by rw [playerPreyCandidates, h]⟩

/-- C8 as amended: provided the prey scan itself succeeds (`get_preys` does
not raise `IndexError`; guaranteed whenever some cell has mass at least
`m - 1024`, e.g. when the querying cell is in the container), the reductions
`get_nearest_prey` and `get_most_perspective_prey` raise the empty-sequence
`ValueError` of `min`/`max` exactly when their filtered candidate set is
empty, and otherwise return a member of that set attaining the minimum
distance (resp. the maximum mass) — never an arbitrary element.  The
unconditional claim is refuted by the counterexample below, where the scan
itself overruns the container. -/
theorem claim_C8 (cells : List PCell) (m : ℤ) (posn : V2) (preysL : List PCell)
    (hp : getPreys cells m = some preysL) :
    ((getNearestPrey cells m posn = .error .emptyArg ↔ preysL = []) ∧
     ∀ c, getNearestPrey cells m posn = .ok c →
       c ∈ preysL ∧ ∀ d ∈ preysL, dSq posn c.pos ≤ dSq posn d.pos) ∧
    ((getMostPerspectivePrey cells m posn = .error .emptyArg ↔
        preysL.filter (fun x => decide (dSq posn x.pos ≤ getRadius m ^ 2 * 16)) = []) ∧
     ∀ c, getMostPerspectivePrey cells m posn = .ok c →
       c ∈ preysL.filter (fun x => decide (dSq posn x.pos ≤ getRadius m ^ 2 * 16)) ∧
       ∀ d ∈ preysL.filter (fun x => decide (dSq posn x.pos ≤ getRadius m ^ 2 * 16)),
         d.mass ≤ c.mass) := by
  have hnear : getNearPreys cells m posn =
      some (preysL.filter (fun x => decide (dSq posn x.pos ≤ getRadius m ^ 2 * 16))) := by
    rw [getNearPreys, hp, Option.map]
  constructor
  · have h1 : getNearestPrey cells m posn =
        (match pyMinBy (fun x => dSq posn x.pos) preysL with
         | none => Except.error PyErr.emptyArg
         | some c => Except.ok c) := by
      unfold getNearestPrey
      rw [hp]
    cases hmin : pyMinBy (fun x => dSq posn x.pos) preysL with
    | none =>
      rw [hmin] at h1
      refine ⟨?_, ?_⟩
      · rw [h1]
        constructor
        · intro _; exact (pyMinBy_eq_none _ _).mp hmin
        · intro _; rfl
      · intro c hc
        rw [h1] at hc
        exact absurd hc (by simp)
    | some c0 =>
      rw [hmin] at h1
      refine ⟨?_, ?_⟩
      · rw [h1]
        constructor
        · intro h; exact absurd h (by simp)
        · intro h
          rw [h] at hmin
          simp [pyMinBy] at hmin
      · intro c hc
        rw [h1] at hc
        have : c0 = c := by simpa using hc
        subst this
        exact pyMinBy_spec _ preysL c0 hmin
  · have h2 : getMostPerspectivePrey cells m posn =
        (match pyMaxBy (fun x => x.mass)
            (preysL.filter (fun x => decide (dSq posn x.pos ≤ getRadius m ^ 2 * 16))) with
         | none => Except.error PyErr.emptyArg
         | some c => Except.ok c) := by
      unfold getMostPerspectivePrey
      rw [hnear]
    cases hmax : pyMaxBy (fun x => x.mass)
        (preysL.filter (fun x => decide (dSq posn x.pos ≤ getRadius m ^ 2 * 16))) with
    | none =>
      rw [hmax] at h2
      refine ⟨?_, ?_⟩
      · rw [h2]
        constructor
        · intro _; exact (pyMaxBy_eq_none _ _).mp hmax
        · intro _; rfl
      · intro c hc
        rw [h2] at hc
        exact absurd hc (by simp)
    | some c0 =>
      rw [hmax] at h2
      refine ⟨?_, ?_⟩
      · rw [h2]
        constructor
        · intro h; exact absurd h (by simp)
        · intro h
          rw [h] at hmax
          simp [pyMaxBy] at hmax
      · intro c hc
        rw [h2] at hc
        have : c0 = c := by simpa using hc
        subst this
        exact pyMaxBy_spec _ _ c0 hmax

/-- Witness for C8: on the container `[mass 16, mass 4096]` queried with mass
4096 from the origin, the prey scan succeeds with the one-element prey list. -/
theorem claim_C8_witness :
    getPreys wcells 4096 = some [wlow] ∧
    (((getNearestPrey wcells 4096 ⟨0, 0⟩ = .error .emptyArg ↔ [wlow] = ([] : List PCell)) ∧
      ∀ c, getNearestPrey wcells 4096 ⟨0, 0⟩ = .ok c →
        c ∈ [wlow] ∧ ∀ d ∈ [wlow], dSq ⟨0, 0⟩ c.pos ≤ dSq ⟨0, 0⟩ d.pos) ∧
     ((getMostPerspectivePrey wcells 4096 ⟨0, 0⟩ = .error .emptyArg ↔
         [wlow].filter
           (fun x => decide (dSq ⟨0, 0⟩ x.pos ≤ getRadius 4096 ^ 2 * 16)) = []) ∧
      ∀ c, getMostPerspectivePrey wcells 4096 ⟨0, 0⟩ = .ok c →
        c ∈ [wlow].filter
            (fun x => decide (dSq ⟨0, 0⟩ x.pos ≤ getRadius 4096 ^ 2 * 16)) ∧
        ∀ d ∈ [wlow].filter
            (fun x => decide (dSq ⟨0, 0⟩ x.pos ≤ getRadius 4096 ^ 2 * 16)),
          d.mass ≤ c.mass)) := by
  have hp : getPreys wcells 4096 = some [wlow] := rfl
  exact ⟨hp, claim_C8 wcells 4096 ⟨0, 0⟩ [wlow] hp⟩

/-- Counterexample to C8 as stated: the claim quantifies over every queried
mass and position, but on the one-cell container `[mass 16]` queried at mass
2048 every cell satisfies `mass + 1024 < m`, so the `get_preys` scan runs its
index off the end of the container (`IndexError`, `main.py:985`) and both
reductions fail with that index error — not with the explicit no-candidate
failure — even though the filtered prey set (the mass-16 cell) is non-empty.
Hence the reductions do not fail with the no-candidate error exactly when the
filtered prey set is empty. -/
theorem claim_C8_cex :
    [wlow].filter (fun c => decide (c.mass + 1024 < 2048)) = [wlow] ∧
    getNearestPrey [wlow] 2048 ⟨0, 0⟩ = .error .indexError ∧
    getNearestPrey [wlow] 2048 ⟨0, 0⟩ ≠ .error .emptyArg ∧
    getMostPerspectivePrey [wlow] 2048 ⟨0, 0⟩ = .error .indexError ∧
    getMostPerspectivePrey [wlow] 2048 ⟨0, 0⟩ ≠ .error .emptyArg := by
  have h1 : getNearestPrey [wlow] 2048 ⟨0, 0⟩ = Except.error PyErr.indexError := rfl
  have h2 : getMostPerspectivePrey [wlow] 2048 ⟨0, 0⟩ = Except.error PyErr.indexError :=
    rfl
  refine ⟨rfl, h1, ?_, h2, ?_⟩
  · rw [h1]
    intro h
    injection h with h3
    exact PyErr.noConfusion h3
  · rw [h2]
    intro h
    injection h with h3
    exact PyErr.noConfusion h3

/-- C3: the claim states that a Player cell `c` absorbs the nearest cell `p`
with `p.mass * 1.125 < c.mass` lying within the quarter-radius zone.  In the
source the candidate list `[i for i in cells if ...]` iterates the container
through `Container.__next__`, which never yields index 0, so when the
qualifying prey is the lowest-mass cell of the sorted container it is
invisible to the scan and no absorption happens.  Here the mass-500 prey sits
one unit from the mass-1000 player cell (its quarter-radius zone reaches
squared distance `1000/(4π) ≈ 79.6`), is the unique qualifying prey, and yet
the absorption step leaves the container — masses, membership and all —
unchanged (the claim predicts mass 1500 and prey removal). -/
theorem claim_C3 :
    9 * cexP.mass < 8 * cexC1.mass ∧
    dSq cexP.pos cexC1.pos ≤ cexC1.sqrRadius / 4 ∧
    (∀ x ∈ cex3cells, 9 * x.mass < 8 * cexC1.mass → x = cexP) ∧
    cexC1 ∈ cex3cells ∧
    absorbStep cex3cells cexC1 = cex3cells := by
  refine ⟨by norm_num [cexP, cexC1], ?_, ?_, by simp [cex3cells], ?_⟩
  · have hsq : cexC1.sqrRadius = 1000 / π := by
      show getRadius 1000 * getRadius 1000 = 1000 / π
      unfold getRadius
      rw [Real.mul_self_sqrt (by positivity)]
      norm_num
    have hd : dSq cexP.pos cexC1.pos = 1 := by
      show ((100 : ℝ) - 100) ^ 2 + ((100 : ℝ) - 101) ^ 2 = 1
      norm_num
    rw [hd, hsq, div_div, le_div_iff₀ (by positivity)]
    nlinarith [Real.pi_lt_d2]
  · intro x hx hm
    simp only [cex3cells, List.mem_cons, List.not_mem_nil, or_false] at hx
    rcases hx with rfl | rfl | rfl
    · rfl
    · norm_num [cexC1] at hm
    · norm_num [cexC1, cexC2] at hm
  · rfl

/-! Numeric bounds for the derived fields of a mass-512 cell, and evaluation
lemmas for `move_cell`. -/

theorem V2.eq_of (a b : V2) (hx : a.x = b.x) (hy : a.y = b.y) : a = b := by
  obtain ⟨ax, ay⟩ := a
  obtain ⟨bx, by'⟩ := b
  simp only at hx hy
  rw [hx, hy]

theorem mag_axis (a : ℝ) : mag ⟨a, 0⟩ = |a| := by
  unfold mag
  simp only
  rw [show a ^ 2 + (0 : ℝ) ^ 2 = a ^ 2 by ring]
  exact Real.sqrt_sq_eq_abs a

theorem rad512_lb : (12.76 : ℝ) < getRadius 512 := by
  unfold getRadius
  rw [show (((512 : ℤ) : ℝ)) = (512 : ℝ) by norm_num]
  rw [show (12.76 : ℝ) = Real.sqrt (12.76 ^ 2) by
    rw [Real.sqrt_sq (by norm_num)]]
  apply Real.sqrt_lt_sqrt (by norm_num)
  rw [lt_div_iff₀ Real.pi_pos]
  nlinarith [Real.pi_lt_d6]

theorem rad512_ub : getRadius 512 < 12.77 := by
  unfold getRadius
  rw [show (((512 : ℤ) : ℝ)) = (512 : ℝ) by norm_num]
  apply (Real.sqrt_lt' (by norm_num)).mpr
  rw [div_lt_iff₀ Real.pi_pos]
  nlinarith [Real.pi_gt_d6]

theorem speed512_lb : (45.24 : ℝ) < speedOf 512 := by
  unfold speedOf
  rw [show (((512 : ℤ) : ℝ)) = (512 : ℝ) by norm_num]
  have hpos : (0 : ℝ) < Real.sqrt 512 := Real.sqrt_pos.mpr (by norm_num)
  rw [lt_div_iff₀ hpos]
  have hub : Real.sqrt 512 < 22.63 := by
    apply (Real.sqrt_lt' (by norm_num)).mpr
    norm_num
  nlinarith

theorem speed512_ub : speedOf 512 < 45.27 := by
  unfold speedOf
  rw [show (((512 : ℤ) : ℝ)) = (512 : ℝ) by norm_num]
  have hpos : (0 : ℝ) < Real.sqrt 512 := Real.sqrt_pos.mpr (by norm_num)
  rw [div_lt_iff₀ hpos]
  have hlb : (22.62 : ℝ) < Real.sqrt 512 := by
    apply (Real.lt_sqrt (by norm_num)).mpr
    norm_num
  nlinarith

theorem moveCell_no_clamp (c : PCell) (dt : ℝ) (dest : V2)
    (hne : c.pos ≠ dest) (hle : mag (dest - c.pos) ≤ c.speed * dt) :
    moveCell c dt dest = { c with pos := dest } := by
  unfold moveCell clampMagnitude
  rw [if_neg hne, if_pos hle]
  have : c.pos + (dest - c.pos) = dest := by
    apply V2.eq_of <;> simp
  rw [this]

theorem moveCell_clamped (c : PCell) (dt : ℝ) (dest : V2)
    (hne : c.pos ≠ dest) (hgt : c.speed * dt < mag (dest - c.pos)) :
    moveCell c dt dest =
      { c with pos := c.pos + ((c.speed * dt) / mag (dest - c.pos)) • (dest - c.pos) } := by
  unfold moveCell clampMagnitude
  rw [if_neg hne, if_neg (not_le.mpr hgt)]

/-- C7: the claim states `point_count = round(2π·radius/10 + 8)` computed from
the radius, with value 19 at mass 1024.  The source calls
`Cell.get_point_count` with `self.mass` instead of the radius, both in
`__init__` and in `update_values`, so a cell of mass 1024 gets
`round(2π·1024/10 + 8) = 651` outline points rather than the
`round(2π·sqrt(1024/π)/10 + 8) = 19` the claim derives. -/
theorem claim_C7 :
    (∀ c : PCell, (updateValuesCell c).pointCount = getPointCount ((c.mass : ℝ))) ∧
    getPointCount ((1024 : ℝ)) = 651 ∧
    getPointCount (getRadius 1024) = 19 := by
  refine ⟨fun c => rfl, ?_, ?_⟩
  · unfold getPointCount
    rw [round_eq, Int.floor_eq_iff]
    constructor
    · push_cast
      nlinarith [Real.pi_gt_d6]
    · push_cast
      nlinarith [Real.pi_lt_d6]
  · have hspos : 0 < Real.sqrt π := Real.sqrt_pos.mpr Real.pi_pos
    have hs2 : Real.sqrt π ^ 2 = π := Real.sq_sqrt Real.pi_pos.le
    have hrad : getRadius 1024 = 32 / Real.sqrt π := by
      unfold getRadius
      rw [show (((1024 : ℤ) : ℝ)) / π = (32 / Real.sqrt π) ^ 2 by
        rw [div_pow, hs2]; norm_num]
      exact Real.sqrt_sq (by positivity)
    have hs_lb : (1.7724 : ℝ) < Real.sqrt π := by
      apply (Real.lt_sqrt (by norm_num)).mpr
      nlinarith [Real.pi_gt_d6]
    have hs_ub : Real.sqrt π < 1.7725 := by
      apply (Real.sqrt_lt' (by norm_num)).mpr
      nlinarith [Real.pi_lt_d6]
    have hval : 2 * π * (32 / Real.sqrt π) / 10 + 8 = 32 / 5 * Real.sqrt π + 8 := by
      field_simp
      linear_combination (-320 : ℝ) * hs2
    unfold getPointCount
    rw [hrad, hval, round_eq, Int.floor_eq_iff]
    constructor
    · push_cast
      nlinarith
    · push_cast
      nlinarith

/-! Evaluation of one `push_away` pass on the overlapping pair `cexA`, `cexB`
(masses 512, centres `(0.05, 0)` and `(25.45, 0)`, centre distance `127/5`,
sum of radii `2·sqrt(512/π) ≈ 25.53`). -/

theorem cex_dir : cexB.pos - cexA.pos = ⟨127/5, 0⟩ := by
  apply V2.eq_of <;> simp [cexA, cexB] <;> norm_num

theorem cex_mag : mag (cexB.pos - cexA.pos) = 127/5 := by
  rw [cex_dir, mag_axis, abs_of_pos] <;> norm_num

theorem cex_intersects : intersectsProp cexA cexB := by
  unfold intersectsProp
  have hd : dSq cexA.pos cexB.pos = (127/5) ^ 2 := by
    unfold dSq
    show ((1 : ℝ)/20 - 509/20) ^ 2 + ((0 : ℝ) - 0) ^ 2 = (127/5) ^ 2
    norm_num
  have hr : cexA.radius = getRadius 512 := rfl
  have hr2 : cexB.radius = getRadius 512 := rfl
  rw [hd, hr, hr2]
  nlinarith [rad512_lb]

theorem pushAway_cex_eval :
    pushAwayPair cexA cexB (1/144) =
      ({ cexA with pos := ⟨-((getRadius 512 + getRadius 512 - 127/5) / 2), 0⟩ },
       { cexB with pos := ⟨509/20 - speedOf 512 * (1/144), 0⟩ }) := by
  have hr1 := rad512_lb
  have hr2 := rad512_ub
  have hs1 := speed512_lb
  have hs2 := speed512_ub
  have hD_lb : (0.12 : ℝ) < getRadius 512 + getRadius 512 - 127/5 := by nlinarith
  have hD_ub : getRadius 512 + getRadius 512 - 127/5 < 0.14 := by nlinarith
  have hrad : cexA.radius + cexB.radius = getRadius 512 + getRadius 512 := rfl
  have hmassB : ((cexB.mass : ℝ)) = 512 := by norm_num [cexB]
  have hmassA : ((cexA.mass : ℝ)) = 512 := by norm_num [cexA]
  have hposA : cexA.pos = ⟨1/20, 0⟩ := rfl
  have hposB : cexB.pos = ⟨509/20, 0⟩ := rfl
  have hspeedA : cexA.speed = speedOf 512 := rfl
  have hspeedB : cexB.speed = speedOf 512 := rfl
  have hratio : (cexB.mass : ℝ) / ((cexA.mass : ℝ) + (cexB.mass : ℝ)) = 1/2 := by
    rw [hmassA, hmassB]
    norm_num
  have hscale :
      scaleToLength (cexB.pos - cexA.pos)
        (cexA.radius + cexB.radius - mag (cexB.pos - cexA.pos)) =
      ⟨getRadius 512 + getRadius 512 - 127/5, 0⟩ := by
    unfold scaleToLength
    rw [cex_mag, cex_dir, hrad]
    apply V2.eq_of
    · simp only [V2.smul_x]
      field_simp
    · simp only [V2.smul_y]
      ring
  have hdest1 :
      -(((cexB.mass : ℝ) / ((cexA.mass : ℝ) + (cexB.mass : ℝ))) •
        scaleToLength (cexB.pos - cexA.pos)
          (cexA.radius + cexB.radius - mag (cexB.pos - cexA.pos))) =
      (⟨-((getRadius 512 + getRadius 512 - 127/5) / 2), 0⟩ : V2) := by
    rw [hscale, hratio]
    apply V2.eq_of
    · simp only [V2.neg_x, V2.smul_x]
      ring
    · simp only [V2.neg_y, V2.smul_y]
      ring
  have hdest2 :
      (((cexB.mass : ℝ) / ((cexA.mass : ℝ) + (cexB.mass : ℝ))) •
        scaleToLength (cexB.pos - cexA.pos)
          (cexA.radius + cexB.radius - mag (cexB.pos - cexA.pos))) =
      (⟨(getRadius 512 + getRadius 512 - 127/5) / 2, 0⟩ : V2) := by
    rw [hscale, hratio]
    apply V2.eq_of
    · simp only [V2.smul_x]
      ring
    · simp only [V2.smul_y]
      ring
  have hmove1 :
      moveCell cexA (1/144) ⟨-((getRadius 512 + getRadius 512 - 127/5) / 2), 0⟩ =
      { cexA with pos := ⟨-((getRadius 512 + getRadius 512 - 127/5) / 2), 0⟩ } := by
    apply moveCell_no_clamp
    · rw [hposA]
      intro h
      have hx := congrArg V2.x h
      simp only at hx
      nlinarith
    · rw [hposA]
      have hdiff :
          (⟨-((getRadius 512 + getRadius 512 - 127/5) / 2), 0⟩ : V2) - ⟨1/20, 0⟩ =
          ⟨-((getRadius 512 + getRadius 512 - 127/5) / 2) - 1/20, 0⟩ := by
        apply V2.eq_of <;> simp
      rw [hdiff, mag_axis, hspeedA, abs_of_neg (by nlinarith)]
      nlinarith
  have hmove2 :
      moveCell cexB (1/144) ⟨(getRadius 512 + getRadius 512 - 127/5) / 2, 0⟩ =
      { cexB with pos := ⟨509/20 - speedOf 512 * (1/144), 0⟩ } := by
    have hdiff :
        (⟨(getRadius 512 + getRadius 512 - 127/5) / 2, 0⟩ : V2) - cexB.pos =
        ⟨(getRadius 512 + getRadius 512 - 127/5) / 2 - 509/20, 0⟩ := by
      rw [hposB]
      apply V2.eq_of <;> simp
    have hA : (0 : ℝ) < 509/20 - (getRadius 512 + getRadius 512 - 127/5) / 2 := by
      nlinarith
    have hmagv :
        mag ((⟨(getRadius 512 + getRadius 512 - 127/5) / 2, 0⟩ : V2) - cexB.pos) =
        509/20 - (getRadius 512 + getRadius 512 - 127/5) / 2 := by
      rw [hdiff, mag_axis, abs_of_neg (by nlinarith)]
      ring
    rw [moveCell_clamped]
    · have hpos :
          cexB.pos +
            ((cexB.speed * (1/144)) /
              mag ((⟨(getRadius 512 + getRadius 512 - 127/5) / 2, 0⟩ : V2) - cexB.pos)) •
              ((⟨(getRadius 512 + getRadius 512 - 127/5) / 2, 0⟩ : V2) - cexB.pos) =
          (⟨509/20 - speedOf 512 * (1/144), 0⟩ : V2) := by
        rw [hmagv, hdiff, hposB, hspeedB]
        apply V2.eq_of
        · simp only [V2.add_x, V2.smul_x]
          rw [show (getRadius 512 + getRadius 512 - 127/5) / 2 - 509/20 =
              -(509/20 - (getRadius 512 + getRadius 512 - 127/5) / 2) by ring]
          rw [mul_neg, div_mul_cancel₀ _ (ne_of_gt hA)]
          ring
        · simp only [V2.add_y, V2.smul_y]
          ring
      rw [hpos]
    · rw [hposB]
      intro h
      have hx := congrArg V2.x h
      simp only at hx
      nlinarith
    · rw [hmagv, hspeedB]
      nlinarith
  unfold pushAwayPair
  rw [if_neg (not_not.mpr cex_intersects)]
  rw [if_neg (show ¬ (cexB.pos - cexA.pos).x = 0 by rw [cex_dir]; norm_num)]
  rw [hdest1, hdest2, hmove1, hmove2]

/-- C4: the claim states that `push_away` displaces each cell of an
intersecting non-degenerate pair away from the other by the penetration depth
scaled by the other cell's mass share.  In the source the scaled vector is
passed to `move_cell`, which interprets its argument as a destination point
(near the world origin) and advances at most `speed * delta_time` toward it,
so the actual displacement of `cexA` differs from the displacement the claim
prescribes (and `cell2`'s scale factor uses `cell2.mass`, its own share,
rather than the other cell's). -/
theorem claim_C4 :
    intersectsProp cexA cexB ∧
    (cexB.pos - cexA.pos).x ≠ 0 ∧
    (pushAwayPair cexA cexB (1/144)).1.pos.x - cexA.pos.x ≠
      -(((cexB.mass : ℝ) / ((cexA.mass : ℝ) + (cexB.mass : ℝ))) *
        (cexA.radius + cexB.radius - mag (cexB.pos - cexA.pos))) := by
  refine ⟨cex_intersects, by rw [cex_dir]; norm_num, ?_⟩
  rw [pushAway_cex_eval, cex_mag]
  have hmassB : ((cexB.mass : ℝ)) = 512 := by norm_num [cexB]
  have hmassA : ((cexA.mass : ℝ)) = 512 := by norm_num [cexA]
  have hrA : cexA.radius = getRadius 512 := rfl
  have hrB : cexB.radius = getRadius 512 := rfl
  have hposA : cexA.pos.x = 1/20 := rfl
  rw [hmassA, hmassB, hrA, hrB, hposA]
  intro h
  linarith

/-- C5: the claim states that one `push_away` pass on an overlapping sibling
pair increases the centre distance monotonically toward `radius1 + radius2`.
Because the scaled separation vectors are fed to `move_cell` as destination
points near the origin, both cells step toward the origin instead; on the
pair `cexA`, `cexB` the squared centre distance strictly decreases in a
single pass. -/
theorem claim_C5 :
    intersectsProp cexA cexB ∧
    dSq (pushAwayPair cexA cexB (1/144)).1.pos (pushAwayPair cexA cexB (1/144)).2.pos <
      dSq cexA.pos cexB.pos := by
  refine ⟨cex_intersects, ?_⟩
  rw [pushAway_cex_eval]
  have hd : dSq cexA.pos cexB.pos = (127/5) ^ 2 := by
    unfold dSq
    show ((1 : ℝ)/20 - 509/20) ^ 2 + ((0 : ℝ) - 0) ^ 2 = (127/5) ^ 2
    norm_num
  rw [hd]
  unfold dSq
  simp only
  have hr1 := rad512_lb
  have hr2 := rad512_ub
  have hs1 := speed512_lb
  have hs2 := speed512_ub
  nlinarith

/-- Counterexample to C9: `push_away` passes its displacement to `move_cell`
as a destination and the result is never clamped within the frame; starting
from the in-bounds pair `cexA`, `cexB`, the first cell's x-coordinate is
negative after the pass, i.e. outside `[0, world_width]`. -/
theorem claim_C9_cex :
    (0 ≤ cexA.pos.x ∧ 0 ≤ cexA.pos.y ∧ 0 ≤ cexB.pos.x ∧ 0 ≤ cexB.pos.y) ∧
    intersectsProp cexA cexB ∧
    (pushAwayPair cexA cexB (1/144)).1.pos.x < 0 := by
  refine ⟨?_, cex_intersects, ?_⟩
  · refine ⟨?_, ?_, ?_, ?_⟩ <;> norm_num [cexA, cexB]
  · rw [pushAway_cex_eval]
    have hr1 := rad512_lb
    show -((getRadius 512 + getRadius 512 - 127/5) / 2) < 0
    nlinarith

/-- C9 (amended): after the per-frame `Cell.update` — `move_cell` toward the
owner's destination followed by the explicit clamp — the cell's centre lies in
`[0, W] × [0, H]`, and whenever the unclamped move crosses a bound the result
sits exactly on that bound.  (The `push_away` moves are not clamped within
the frame; see the counterexample.) -/
theorem claim_C9 (c : PCell) (dt : ℝ) (dest : V2) (W H : ℝ)
    (hW : 0 ≤ W) (hH : 0 ≤ H) :
    (0 ≤ (cellUpdate c dt dest W H).pos.x ∧ (cellUpdate c dt dest W H).pos.x ≤ W ∧
     0 ≤ (cellUpdate c dt dest W H).pos.y ∧ (cellUpdate c dt dest W H).pos.y ≤ H) ∧
    (W < (moveCell c dt dest).pos.x → (cellUpdate c dt dest W H).pos.x = W) ∧
    ((moveCell c dt dest).pos.x < 0 → (cellUpdate c dt dest W H).pos.x = 0) ∧
    (H < (moveCell c dt dest).pos.y → (cellUpdate c dt dest W H).pos.y = H) ∧
    ((moveCell c dt dest).pos.y < 0 → (cellUpdate c dt dest W H).pos.y = 0) := by
  have hx : (cellUpdate c dt dest W H).pos.x = max 0 (min (moveCell c dt dest).pos.x W) :=
    rfl
  have hy : (cellUpdate c dt dest W H).pos.y = max 0 (min (moveCell c dt dest).pos.y H) :=
    rfl
  rw [hx, hy]
  refine ⟨⟨le_max_left _ _, max_le hW (min_le_right _ _),
          le_max_left _ _, max_le hH (min_le_right _ _)⟩, ?_, ?_, ?_, ?_⟩
  · intro h
    rw [min_eq_right (le_of_lt h), max_eq_right hW]
  · intro h
    rw [max_eq_left]
    exact le_trans (min_le_left _ _) (le_of_lt h)
  · intro h
    rw [min_eq_right (le_of_lt h), max_eq_right hH]
  · intro h
    rw [max_eq_left]
    exact le_trans (min_le_left _ _) (le_of_lt h)

/-- Witness for C9 (amended) at the world size 800 × 600 with the cell
`wstatic`, whose destination equals its position. -/
theorem claim_C9_witness :
    (0 ≤ (cellUpdate wstatic (1/144) ⟨900, -5⟩ 800 600).pos.x ∧
     (cellUpdate wstatic (1/144) ⟨900, -5⟩ 800 600).pos.x ≤ 800 ∧
     0 ≤ (cellUpdate wstatic (1/144) ⟨900, -5⟩ 800 600).pos.y ∧
     (cellUpdate wstatic (1/144) ⟨900, -5⟩ 800 600).pos.y ≤ 600) ∧
    (800 < (moveCell wstatic (1/144) ⟨900, -5⟩).pos.x →
      (cellUpdate wstatic (1/144) ⟨900, -5⟩ 800 600).pos.x = 800) ∧
    ((moveCell wstatic (1/144) ⟨900, -5⟩).pos.x < 0 →
      (cellUpdate wstatic (1/144) ⟨900, -5⟩ 800 600).pos.x = 0) ∧
    (600 < (moveCell wstatic (1/144) ⟨900, -5⟩).pos.y →
      (cellUpdate wstatic (1/144) ⟨900, -5⟩ 800 600).pos.y = 600) ∧
    ((moveCell wstatic (1/144) ⟨900, -5⟩).pos.y < 0 →
      (cellUpdate wstatic (1/144) ⟨900, -5⟩ 800 600).pos.y = 0) :=
  claim_C9 wstatic (1/144) ⟨900, -5⟩ 800 600 (by norm_num) (by norm_num)

end CellSim
